import Mathlib

/-!
# hackfs: an RSS feed exposed as a read-only FUSE directory

A shallow embedding of `examples/hackfs/main.go`.

Conventions of the embedding

* A Go `string` is modelled by its sequence of Unicode code points (`List Char`).
  The strings of this program are feed text delivered by the XML decoder and
  names compared with such text; byte length and byte offsets only matter for
  the content of a file, which is the `[]byte` conversion (`goBytes`, UTF-8).
* `int` is the 64-bit `int` of the platforms FUSE runs on, so `int(off)` is the
  identity on an `int64`; sums of `int` values wrap (`wrapInt64`).
* A Go `map[string]*rss.Item` is an association list, `nil` being `none`. The
  iteration order of a Go map is unspecified; the list order stands for one
  possible order and no statement below depends on it.
* The mutex, the log output and the `context.Context` arguments carry no data
  and are left out. `time.Now()`, `Time.Format` and the inode numbers chosen by
  the transport are inputs (`Env`).
-/

namespace HackFS

/-! ## Strings -/

/-- Go `string`. -/
abbrev GoString := List Char

/-- Go `error`, identified with its message; `nil` is `none`. -/
abbrev GoError := GoString

/-- `const fileSuffix = ".txt"` -/
def fileSuffix : GoString := ".txt".toList

/-- Scanning loop of `strings.Replace(s, old, new, -1)` for a non-empty `old`:
occurrences are taken left to right and do not overlap. The counter is the
number of characters of the occurrence just replaced that are still to be
passed over. -/
def replaceFrom (old new : GoString) : Nat → GoString → GoString
  | _, [] => []
  | skip + 1, _ :: rest => replaceFrom old new skip rest
  | 0, c :: rest =>
    if old.isPrefixOf (c :: rest) then new ++ replaceFrom old new (old.length - 1) rest
    else c :: replaceFrom old new 0 rest

/-- `strings.ReplaceAll(s, old, new)`. An empty `old` matches before the first
code point and after every code point. -/
def ReplaceAll (s old new : GoString) : GoString :=
  if old = [] then new ++ s.flatMap (fun c => c :: new) else replaceFrom old new 0 s

/-- `unicode.IsSpace`: the Latin-1 cases and the `White_Space` range table. -/
def IsSpace (r : Char) : Bool :=
  let n := r.toNat
  if n ≤ 0xFF then
    n == 0x09 || n == 0x0A || n == 0x0B || n == 0x0C || n == 0x0D || n == 0x20
      || n == 0x85 || n == 0xA0
  else
    n == 0x1680 || (0x2000 ≤ n && n ≤ 0x200A) || n == 0x2028 || n == 0x2029
      || n == 0x202F || n == 0x205F || n == 0x3000

/-- `strings.TrimSpace(s)`, that is `TrimRightFunc(TrimLeftFunc(s, IsSpace), IsSpace)`. -/
def TrimSpace (s : GoString) : GoString :=
  (s.dropWhile IsSpace).rdropWhile IsSpace

/-- `strings.HasSuffix(s, suffix)`:
`len(s) >= len(suffix) && s[len(s)-len(suffix):] == suffix`. -/
def HasSuffix (s suffix : GoString) : Bool :=
  decide (suffix.length ≤ s.length) && s.drop (s.length - suffix.length) == suffix

/-- `strings.TrimSuffix(s, suffix)`. -/
def TrimSuffix (s suffix : GoString) : GoString :=
  if HasSuffix s suffix then s.take (s.length - suffix.length) else s

/-- The verb loop of `fmt.Sprintf` for a format whose only verb is `%s` and
whose operands are strings. A `%s` without operand prints `%!s(MISSING)`. -/
def sprintfS : GoString → List GoString → GoString
  | '%' :: 's' :: rest, a :: args => a ++ sprintfS rest args
  | '%' :: 's' :: rest, [] => "%!s(MISSING)".toList ++ sprintfS rest []
  | c :: rest, args => c :: sprintfS rest args
  | [], _ => []

/-- The conversion `[]byte(s)`: the UTF-8 bytes of the string. -/
def goBytes (s : GoString) : List UInt8 :=
  s.flatMap String.utf8EncodeChar

/-- `sanitizeFilename` (main.go 21-25). -/
def sanitizeFilename (name : GoString) : GoString :=
  let name := ReplaceAll name "/".toList "-".toList
  let name := TrimSpace name
  name

/-! ## Machine integers, errno values, time -/

/-- Two's-complement wrap of an integer to `int64`. -/
def wrapInt64 (x : Int) : Int := (x + 2 ^ 63) % 2 ^ 64 - 2 ^ 63

/-- Conversion to `uint64`. -/
def toUint64 (x : Int) : Nat := (x % 2 ^ 64).toNat

/-- Conversion to `uint32`. -/
def toUint32 (x : Int) : Nat := (x % 2 ^ 32).toNat

/-- `syscall.Errno`. -/
abbrev Errno := Nat

/-- `fs.OK` -/
def OK : Errno := 0
/-- `syscall.ENOENT` -/
def ENOENT : Errno := 2
/-- `syscall.EINVAL` -/
def EINVAL : Errno := 22

/-- `fuse.S_IFREG` -/
def S_IFREG : Nat := 0o100000
/-- `fuse.S_IFDIR` -/
def S_IFDIR : Nat := 0o040000

/-- `time.Time`: seconds since January 1 of year 1 and the nanoseconds within
the second. -/
structure Time where
  sec : Int
  nsec : Nat
  deriving DecidableEq, Repr

/-- `Time.IsZero`. -/
def Time.IsZero (t : Time) : Bool := t.sec == 0 && t.nsec == 0

/-- `Time.Unix`: seconds since January 1, 1970. -/
def Time.Unix (t : Time) : Int := t.sec - 62135596800

/-- `Time.Nanosecond`. -/
def Time.Nanosecond (t : Time) : Nat := t.nsec

/-! ## Transport records -/

/-- `fuse.Attr`, the fields this program writes. -/
structure Attr where
  Size : Nat := 0
  Atime : Nat := 0
  Mtime : Nat := 0
  Ctime : Nat := 0
  Atimensec : Nat := 0
  Mtimensec : Nat := 0
  Ctimensec : Nat := 0
  Mode : Nat := 0
  deriving DecidableEq, Repr

/-- `(*fuse.Attr).SetTimes(access, mod, chstatus)`: each non-nil argument is
stored as Unix seconds and nanoseconds. -/
def Attr.SetTimes (a : Attr) (access mod chstatus : Option Time) : Attr :=
  let a := match access with
    | some t => { a with Atime := toUint64 t.Unix, Atimensec := toUint32 t.Nanosecond }
    | none => a
  let a := match mod with
    | some t => { a with Mtime := toUint64 t.Unix, Mtimensec := toUint32 t.Nanosecond }
    | none => a
  match chstatus with
    | some t => { a with Ctime := toUint64 t.Unix, Ctimensec := toUint32 t.Nanosecond }
    | none => a

/-- `fuse.EntryOut`; `Attr` is embedded, so `out.SetTimes` acts on it. -/
structure EntryOut where
  NodeId : Nat := 0
  Generation : Nat := 0
  Attr : Attr := {}
  deriving DecidableEq, Repr

/-- `fuse.AttrOut`; `Attr` is embedded. -/
structure AttrOut where
  Attr : Attr := {}
  deriving DecidableEq, Repr

/-- `fuse.DirEntry`. -/
structure DirEntry where
  Name : GoString
  Mode : Nat
  deriving DecidableEq, Repr

/-- `fs.StableAttr`. -/
structure StableAttr where
  Mode : Nat := 0
  Ino : Nat := 0
  Gen : Nat := 0
  deriving DecidableEq, Repr

/-! ## The file node -/

/-- `type RssFile struct { fs.Inode; content []byte }` -/
structure RssFile where
  content : List UInt8
  deriving DecidableEq, Repr

/-- The slice expression `s[lo:hi]`; `none` is the run-time panic for bounds out
of range. The upper bound is checked against `len(s)`: `Read` never asks for
more, its `end` being clipped to `len(f.content)` beforehand. -/
def sliceExpr {α : Type} (s : List α) (lo hi : Int) : Option (List α) :=
  if 0 ≤ lo ∧ lo ≤ hi ∧ hi ≤ s.length then some ((s.take hi.toNat).drop lo.toNat) else none

/-- `RssFile.Read` (main.go 38-54). The result is the pair
`(fuse.ReadResult, syscall.Errno)`, a nil `ReadResult` being `none`; the outer
`none` is a run-time panic. -/
def RssFile.Read (f : RssFile) (dest : List UInt8) (off : Int) :
    Option (Option (List UInt8) × Errno) :=
  let end_ := wrapInt64 (off + dest.length)
  let end_ := if end_ > f.content.length then (f.content.length : Int) else end_
  if off ≥ f.content.length then
    some (some [], OK)
  else if off < 0 then
    some (none, EINVAL)
  else
    (sliceExpr f.content off end_).map (fun d => (some d, OK))

/-- `RssFile.Getattr` (main.go 60-66); `now` is `time.Now()`. -/
def RssFile.Getattr (f : RssFile) (now : Time) (out : AttrOut) : AttrOut × Errno :=
  let a := { out.Attr with Mode := 0o444 }
  let a := { a with Size := toUint64 f.content.length }
  let a := a.SetTimes (some now) (some now) (some now)
  ({ out with Attr := a }, OK)

/-! ## The directory node -/

/-- `rss.Item`, the fields this program reads. -/
structure Item where
  Title : GoString
  Summary : GoString := []
  Content : GoString := []
  Link : GoString := []
  Date : Time := ⟨0, 0⟩
  deriving DecidableEq, Repr

/-- `rss.Feed`, the fields this program reads; `Items` is a `[]*rss.Item`, a
nil pointer being `none`. -/
structure Feed where
  Title : GoString
  Items : List (Option Item)
  deriving DecidableEq, Repr

/-- `map[string]*rss.Item` with its entries; the stored pointers are non-nil
(`fetchRssData` is the only writer and skips nil items). -/
abbrev ItemMap := List (GoString × Item)

/-- The index expression `m[key]` in its two-result form `item, ok := m[key]`;
reading a nil map finds nothing. -/
def mapIndex (m : Option ItemMap) (key : GoString) : Option Item :=
  match m with
  | none => none
  | some l => l.lookup key

/-- The assignment `m[key] = item` on a non-nil map: the entry of `key` is
replaced or created. -/
def mapAssign (m : ItemMap) (key : GoString) (item : Item) : ItemMap :=
  (key, item) :: m.filter (fun e => e.1 != key)

/-- The keys met by `for baseName := range m`. -/
def mapKeys (m : Option ItemMap) : List GoString :=
  match m with
  | none => []
  | some l => l.map Prod.fst

/-- `type RssRoot struct { fs.Inode; mu; items; feedUrl; feedName }` -/
structure RssRoot where
  items : Option ItemMap := none
  feedUrl : GoString := []
  feedName : GoString := []
  deriving DecidableEq, Repr

/-- What `rss.Fetch` returns: `(*rss.Feed, error)`. -/
abbrev Fetched := Option Feed × Option GoError

/-- One iteration of the loop `for _, item := range feed.Items` of
`fetchRssData` (main.go 111-125). -/
def fetchStep (items : ItemMap) (item : Option Item) : ItemMap :=
  match item with
  | none => items
  | some item =>
    if item.Title = [] then items
    else
      let baseFilename := sanitizeFilename item.Title
      if baseFilename = [] then items
      else mapAssign items baseFilename item

/-- `RssRoot.fetchRssData` (main.go 94-127); `Fetch` is `rss.Fetch`. -/
def RssRoot.fetchRssData (r : RssRoot) (Fetch : GoString → Fetched) : RssRoot × Option GoError :=
  match Fetch r.feedUrl with
  | (_, some err) => (r, some ("failed to fetch feed: ".toList ++ err))
  | (none, none) => (r, some "fetched feed is nil".toList)
  | (some feed, none) =>
    let r := { r with feedName := feed.Title }
    let r := if r.items = none then { r with items := some [] } else r
    let r := { r with items := some (feed.Items.foldl fetchStep (r.items.getD [])) }
    (r, none)

/-- `RssRoot.OnAdd` (main.go 83-92). -/
def RssRoot.OnAdd (r : RssRoot) (Fetch : GoString → Fetched) : RssRoot :=
  let r := { r with items := some [] }
  (r.fetchRssData Fetch).1

/-- `RssRoot.Readdir` (main.go 129-142): the entries handed to
`fs.NewListDirStream`. -/
def RssRoot.Readdir (r : RssRoot) : List DirEntry × Errno :=
  let entries := (mapKeys r.items).foldl
    (fun entries baseName => entries ++ [{ Name := baseName ++ fileSuffix, Mode := S_IFREG }]) []
  (entries, OK)

/-- What `RssRoot.Lookup` takes from outside the program. -/
structure Env where
  /-- `time.Now()` -/
  now : Time
  /-- `t.Format(time.RFC1123)` -/
  formatRFC1123 : Time → GoString
  /-- the `StableAttr` of the inode made by `r.NewInode(ctx, node, stable)` -/
  newInodeAttr : StableAttr → StableAttr

/-- `*fs.Inode` of a file: the node it wraps and its stable attributes. -/
structure Inode where
  node : RssFile
  stable : StableAttr
  deriving DecidableEq, Repr

/-- The content synthesis of `RssRoot.Lookup` (main.go 162-178). -/
def lookupContent (env : Env) (item : Item) : List UInt8 :=
  let contentStr :=
    if item.Content ≠ [] then item.Content
    else if item.Content ≠ [] then item.Content
    else if item.Summary ≠ [] then item.Summary
    else "no content available.".toList
  goBytes (sprintfS "Title: %s\nLink: %s\nPublished: %s\n\n%s\n".toList
    [item.Title, item.Link, env.formatRFC1123 item.Date, contentStr])

/-- `RssRoot.Lookup` (main.go 144-200): the returned `(*fs.Inode, Errno)` and
the `out` record after the call. -/
def RssRoot.Lookup (r : RssRoot) (env : Env) (name : GoString) (out : EntryOut) :
    (Option Inode × Errno) × EntryOut :=
  if !HasSuffix name fileSuffix then ((none, ENOENT), out)
  else
    let baseName := TrimSuffix name fileSuffix
    match mapIndex r.items baseName with
    | none => ((none, ENOENT), out)
    | some item =>
      let contentBytes := lookupContent env item
      let fileNode : RssFile := { content := contentBytes }
      let stable : StableAttr := { Mode := S_IFREG }
      let childInode : Inode := { node := fileNode, stable := env.newInodeAttr stable }
      let out := { out with Attr := { out.Attr with Mode := 0o444 } }
      let out := { out with Attr := { out.Attr with Size := toUint64 contentBytes.length } }
      let now := env.now
      let attrTime := if !item.Date.IsZero then item.Date else now
      let out := { out with Attr := out.Attr.SetTimes (some attrTime) (some now) (some now) }
      let out := { out with NodeId := childInode.stable.Ino }
      let out := { out with Generation := childInode.stable.Gen }
      ((some childInode, OK), out)

/-- The `out` record as `RssRoot.Lookup` leaves it when `item` is found
(main.go 187-197), written as one expression. -/
def lookupOut (env : Env) (item : Item) (out : EntryOut) : EntryOut :=
  { NodeId := (env.newInodeAttr { Mode := S_IFREG }).Ino
    Generation := (env.newInodeAttr { Mode := S_IFREG }).Gen
    Attr := Attr.SetTimes
      { out.Attr with Mode := 0o444, Size := toUint64 (lookupContent env item).length }
      (some (if item.Date.IsZero then env.now else item.Date)) (some env.now) (some env.now) }

/-- `RssRoot.Getattr` (main.go 202-207). -/
def RssRoot.Getattr (_r : RssRoot) (now : Time) (out : AttrOut) : AttrOut × Errno :=
  let a := { out.Attr with Mode := 0o555 ||| S_IFDIR }
  let a := a.SetTimes (some now) (some now) (some now)
  ({ out with Attr := a }, OK)

/-! ## Reference definitions -/

/-- The read contract in the words of the specification. -/
def readSpec (content : List UInt8) (off : Int) (n : Nat) : Option (List UInt8) × Errno :=
  if off < 0 then (none, EINVAL)
  else if off ≥ content.length then (some [], OK)
  else (some ((content.drop off.toNat).take (min (off.toNat + n) content.length - off.toNat)), OK)

/-- The acceptance test of one entry of `feed.Items`: the item is present,
its title is non-empty and so is its sanitized name. -/
def accepted (o : Option Item) : Option Item :=
  o.bind (fun it => if it.Title ≠ [] ∧ sanitizeFilename it.Title ≠ [] then some it else none)

/-- The feed items a refresh accepts, in feed order. -/
def acceptedItems (items : List (Option Item)) : List Item :=
  items.filterMap accepted

/-- The accepted item that comes last in feed order among those whose
sanitized name is `name`. -/
def lastNamed (items : List (Option Item)) (name : GoString) : Option Item :=
  ((acceptedItems items).filter (fun it => sanitizeFilename it.Title = name)).getLast?

/-- The sanitized names of the accepted items, in feed order. -/
def acceptedNames (items : List (Option Item)) : List GoString :=
  (acceptedItems items).map (fun it => sanitizeFilename it.Title)

/-- The body of the rendered document in the words of the specification. -/
def bodySpec (item : Item) : GoString :=
  if item.Content ≠ [] then item.Content
  else if item.Summary ≠ [] then item.Summary
  else "no content available.".toList

/-- The rendered document in the words of the specification; `formattedDate`
is the formatted publish date. -/
def documentSpec (formattedDate : GoString) (item : Item) : GoString :=
  "Title: ".toList ++ item.Title ++ "\nLink: ".toList ++ item.Link
    ++ "\nPublished: ".toList ++ formattedDate ++ "\n\n".toList ++ bodySpec item ++ "\n".toList

/-! ## Example values -/

/-- A feed item with content and a publish date. -/
def exHello : Item :=
  { Title := "Hello/World".toList, Content := "Body text".toList, Link := "http://x".toList,
    Date := ⟨63000000000, 5⟩ }

/-- A later feed item whose sanitized name is that of `exHello`; it has a
summary only and no publish date. -/
def exLater : Item :=
  { Title := " Hello-World".toList, Summary := "Second".toList }

/-- A feed item of an earlier refresh. -/
def exOld : Item := { Title := "Old".toList }

/-- A feed item with another name. -/
def exNews : Item := { Title := "News".toList, Link := "http://y".toList }

/-- An environment: a clock reading, a date format and an inode allocator. -/
def exEnv : Env :=
  { now := ⟨63900000000, 7⟩
    formatRFC1123 := fun _ => "Sat, 29 Nov 2025 08:00:00 UTC".toList
    newInodeAttr := fun s => { s with Ino := 7, Gen := 1 } }

/-- A fetch collaborator that delivers `feed`. -/
def exFetch (feed : Feed) : GoString → Fetched := fun _ => (some feed, none)

/-- A fetch collaborator that fails. -/
def exFetchError : GoString → Fetched := fun _ => (none, some "timeout".toList)

/-- A store left by an earlier refresh. -/
def exStore : RssRoot := { items := some [("Old".toList, exOld)], feedName := "Before".toList }

/-- A store holding `exHello`. -/
def exStoreHello : RssRoot := { items := some [("Hello-World".toList, exHello)] }

/-! ## Lemmas on the string functions -/

theorem replaceFrom_slash (s : GoString) :
    replaceFrom ['/'] ['-'] 0 s = s.map (fun c => if c = '/' then '-' else c) := by
  induction s with
  | nil => rfl
  | cons c rest ih =>
    by_cases h : c = '/'
    · subst h
      simp [replaceFrom, ih]
    · have h2 : ¬ ('/' = c) := fun e => h e.symm
      simp [replaceFrom, ih, h, h2]

theorem ReplaceAll_slash (s : GoString) :
    ReplaceAll s "/".toList "-".toList = s.map (fun c => if c = '/' then '-' else c) := by
  have h1 : "/".toList = ['/'] := rfl
  have h2 : "-".toList = ['-'] := rfl
  rw [h1, h2]
  simp [ReplaceAll, replaceFrom_slash]

theorem slash_not_mem_ReplaceAll (s : GoString) :
    '/' ∉ ReplaceAll s "/".toList "-".toList := by
  rw [ReplaceAll_slash]
  intro h
  obtain ⟨c, _, hc⟩ := List.mem_map.1 h
  by_cases e : c = '/'
  · simp [e] at hc
  · simp [e] at hc

theorem ReplaceAll_of_slash_not_mem (s : GoString) (h : '/' ∉ s) :
    ReplaceAll s "/".toList "-".toList = s := by
  rw [ReplaceAll_slash]
  induction s with
  | nil => rfl
  | cons c rest ih =>
    have hc : c ≠ '/' := fun e => h (by simp [e])
    have hr : '/' ∉ rest := fun m => h (List.mem_cons_of_mem _ m)
    simp [hc, ih hr]

theorem TrimSpace_sublist (s : GoString) : (TrimSpace s).Sublist s :=
  ((List.rdropWhile_prefix (p := IsSpace) (l := s.dropWhile IsSpace)).sublist).trans
    (List.dropWhile_sublist IsSpace)

theorem dropWhile_of_head_not {p : Char → Bool} :
    ∀ (v t : List Char), v ≠ [] → (∀ hw : v ++ t ≠ [], p ((v ++ t).head hw) = false) →
      v.dropWhile p = v
  | [], _, h, _ => absurd rfl h
  | c :: v, t, _, h => by
    have := h (by simp)
    simp at this
    simp [List.dropWhile, this]

theorem TrimSpace_idem (s : GoString) : TrimSpace (TrimSpace s) = TrimSpace s := by
  unfold TrimSpace
  have hd : List.dropWhile IsSpace ((s.dropWhile IsSpace).rdropWhile IsSpace)
      = (s.dropWhile IsSpace).rdropWhile IsSpace := by
    by_cases hne : (s.dropWhile IsSpace).rdropWhile IsSpace = []
    · rw [hne]; rfl
    · obtain ⟨t, ht⟩ := List.rdropWhile_prefix (p := IsSpace) (l := s.dropWhile IsSpace)
      refine dropWhile_of_head_not _ t hne ?_
      intro hw
      have := List.head_dropWhile_not IsSpace s (ht ▸ hw)
      simpa [ht] using this
  rw [hd, List.rdropWhile_idempotent]

theorem sanitize_no_slash (t : GoString) : '/' ∉ sanitizeFilename t := fun h =>
  slash_not_mem_ReplaceAll t ((TrimSpace_sublist _).subset h)

theorem sanitize_idem (t : GoString) :
    sanitizeFilename (sanitizeFilename t) = sanitizeFilename t := by
  have h := ReplaceAll_of_slash_not_mem _ (sanitize_no_slash t)
  show TrimSpace (ReplaceAll (sanitizeFilename t) "/".toList "-".toList) = sanitizeFilename t
  rw [h]
  exact TrimSpace_idem _

theorem HasSuffix_iff (s suffix : GoString) :
    HasSuffix s suffix = true ↔ suffix <:+ s := by
  unfold HasSuffix
  constructor
  · intro h
    simp only [Bool.and_eq_true, decide_eq_true_eq, beq_iff_eq] at h
    have := List.take_append_drop (s.length - suffix.length) s
    rw [h.2] at this
    exact ⟨_, this⟩
  · rintro ⟨b, rfl⟩
    simp

theorem HasSuffix_append (b suffix : GoString) : HasSuffix (b ++ suffix) suffix = true :=
  (HasSuffix_iff _ _).2 ⟨b, rfl⟩

theorem TrimSuffix_append (b suffix : GoString) : TrimSuffix (b ++ suffix) suffix = b := by
  unfold TrimSuffix
  rw [if_pos (HasSuffix_append b suffix)]
  simp

/-! ## Lemmas on machine integers and on reading -/

theorem wrapInt64_of_range (x : Int) (h1 : -2 ^ 63 ≤ x) (h2 : x < 2 ^ 63) : wrapInt64 x = x := by
  unfold wrapInt64
  rw [Int.emod_eq_of_lt (by omega) (by omega)]
  omega

theorem toUint64_natCast (n : Nat) (h : n < 2 ^ 63) : toUint64 (n : Int) = n := by
  unfold toUint64
  rw [Int.emod_eq_of_lt (by omega) (by omega)]
  simp

theorem Read_whole (f : RssFile) (dest : List UInt8) (hlen : f.content.length < 2 ^ 63)
    (hdest : dest.length = f.content.length) :
    f.Read dest 0 = some (some f.content, OK) := by
  have hw : wrapInt64 ((0 : Int) + dest.length) = dest.length := by
    rw [Int.zero_add]
    exact wrapInt64_of_range _ (by omega) (by omega)
  unfold RssFile.Read
  rw [hw, hdest]
  by_cases h0 : f.content.length = 0
  · have hc : f.content = [] := List.length_eq_zero.1 h0
    rw [hc]
    rfl
  · have h1 : ¬ ((0 : Int) ≥ (f.content.length : Int)) := by omega
    have h2 : ¬ ((f.content.length : Int) > (f.content.length : Int)) := by omega
    have h3 : (0 : Int) ≤ 0 ∧ (0 : Int) ≤ (f.content.length : Int)
        ∧ (f.content.length : Int) ≤ (f.content.length : Int) :=
      ⟨le_refl _, by omega, by omega⟩
    have h4 : ¬ ((0 : Int) < 0) := by omega
    simp only [if_neg h1, if_neg h2, if_neg h4, sliceExpr, if_pos h3]
    simp

/-! ## Lemmas on the item map -/

theorem bne_true_of_ne {a k : GoString} (h : a ≠ k) : (a != k) = true := by
  simpa using h

theorem beq_false_of_ne {a k : GoString} (h : a ≠ k) : (a == k) = false := by
  simpa using h

theorem filter_ne_cons_same (m : ItemMap) (k : GoString) (b : Item) :
    ((k, b) :: m).filter (fun e => e.1 != k) = m.filter (fun e => e.1 != k) :=
  List.filter_cons_of_neg (by simp)

theorem filter_ne_cons_other (m : ItemMap) {a k : GoString} (b : Item) (h : a ≠ k) :
    ((a, b) :: m).filter (fun e => e.1 != k) = (a, b) :: m.filter (fun e => e.1 != k) :=
  List.filter_cons_of_pos (by simpa using h)

theorem lookup_cons_same (m : ItemMap) (k : GoString) (b : Item) :
    List.lookup k ((k, b) :: m) = some b := by
  rw [List.lookup_cons]; simp

theorem lookup_cons_other (m : ItemMap) {a k : GoString} (b : Item) (h : k ≠ a) :
    List.lookup k ((a, b) :: m) = List.lookup k m := by
  rw [List.lookup_cons, beq_false_of_ne h]

theorem lookup_filter_ne (m : ItemMap) (k k' : GoString) :
    (m.filter (fun e => e.1 != k)).lookup k' = if k' = k then none else m.lookup k' := by
  induction m with
  | nil => simp
  | cons e m ih =>
    obtain ⟨a, b⟩ := e
    by_cases hak : a = k
    · subst hak
      rw [filter_ne_cons_same, ih]
      by_cases hk : k' = a
      · rw [if_pos hk, if_pos hk]
      · rw [if_neg hk, if_neg hk, lookup_cons_other _ _ hk]
    · rw [filter_ne_cons_other _ _ hak]
      by_cases hka : k' = a
      · subst hka
        rw [lookup_cons_same, lookup_cons_same, if_neg hak]
      · rw [lookup_cons_other _ _ hka, lookup_cons_other _ _ hka, ih]

theorem lookup_mapAssign (m : ItemMap) (k k' : GoString) (v : Item) :
    (mapAssign m k v).lookup k' = if k' = k then some v else m.lookup k' := by
  unfold mapAssign
  by_cases hk : k' = k
  · subst hk
    rw [lookup_cons_same, if_pos rfl]
  · rw [lookup_cons_other _ _ hk, lookup_filter_ne, if_neg hk, if_neg hk]

theorem count_keys_filter_ne (m : ItemMap) (k k' : GoString) :
    ((m.filter (fun e => e.1 != k)).map Prod.fst).count k'
      = if k' = k then 0 else (m.map Prod.fst).count k' := by
  induction m with
  | nil => simp
  | cons e m ih =>
    obtain ⟨a, b⟩ := e
    by_cases hak : a = k
    · subst hak
      rw [filter_ne_cons_same, ih]
      by_cases hk : k' = a
      · rw [if_pos hk, if_pos hk]
      · rw [if_neg hk, if_neg hk, List.map_cons]
        dsimp only
        rw [List.count_cons_of_ne hk]
    · rw [filter_ne_cons_other _ _ hak, List.map_cons, List.map_cons]
      dsimp only
      by_cases hka : k' = a
      · subst hka
        rw [List.count_cons_self, List.count_cons_self, ih, if_neg hak, if_neg hak]
      · rw [List.count_cons_of_ne hka, List.count_cons_of_ne hka, ih]

theorem count_keys_mapAssign (m : ItemMap) (k k' : GoString) (v : Item) :
    ((mapAssign m k v).map Prod.fst).count k'
      = if k' = k then 1 else (m.map Prod.fst).count k' := by
  unfold mapAssign
  rw [List.map_cons]
  dsimp only
  by_cases hk : k' = k
  · subst hk
    rw [List.count_cons_self, count_keys_filter_ne, if_pos rfl, if_pos rfl]
  · rw [List.count_cons_of_ne hk, count_keys_filter_ne, if_neg hk, if_neg hk]

theorem count_decEq_eq_count (k : GoString) (l : List GoString) :
    @List.count GoString instBEqOfDecidableEq k l = List.count k l := by
  induction l with
  | nil => rfl
  | cons a l ih =>
    rw [@List.count_cons GoString instBEqOfDecidableEq, List.count_cons, ih]
    by_cases h : a = k
    · have h1 : (a == k) = true := by rw [h]; exact beq_self_eq_true k
      have h2 : (@BEq.beq GoString instBEqOfDecidableEq a k) = true := decide_eq_true h
      rw [h1, h2]
    · have h1 : (a == k) = false := beq_false_of_ne h
      have h2 : (@BEq.beq GoString instBEqOfDecidableEq a k) = false := decide_eq_false h
      rw [h1, h2]

theorem mem_mapKeys_iff (m : Option ItemMap) (k : GoString) :
    k ∈ mapKeys m ↔ ∃ it, mapIndex m k = some it := by
  cases m with
  | none => simp [mapKeys, mapIndex]
  | some l =>
    simp only [mapKeys, mapIndex]
    induction l with
    | nil => simp
    | cons e l ih =>
      obtain ⟨a, b⟩ := e
      rw [List.map_cons, List.mem_cons]
      by_cases hk : k = a
      · subst hk
        exact ⟨fun _ => ⟨b, lookup_cons_same _ _ _⟩, fun _ => Or.inl rfl⟩
      · rw [lookup_cons_other _ _ hk, ← ih]
        exact ⟨fun h => h.resolve_left hk, Or.inr⟩

/-! ## Lemmas on the refresh loop -/

theorem acceptedItems_cons (o : Option Item) (rest : List (Option Item)) :
    acceptedItems (o :: rest)
      = match accepted o with
        | some it => it :: acceptedItems rest
        | none => acceptedItems rest := by
  unfold acceptedItems
  rw [List.filterMap_cons]
  cases accepted o <;> rfl

theorem acceptedItems_map_some (items : List Item)
    (h : ∀ it ∈ items, it.Title ≠ [] ∧ sanitizeFilename it.Title ≠ []) :
    acceptedItems (items.map some) = items := by
  induction items with
  | nil => rfl
  | cons it rest ih =>
    have h1 := h it (List.mem_cons_self _ _)
    have h2 : accepted (some it) = some it := by
      simp [accepted, h1.1, h1.2]
    rw [List.map_cons, acceptedItems_cons, h2]
    dsimp only
    rw [ih (fun x hx => h x (List.mem_cons_of_mem _ hx))]

theorem fetchStep_eq (m : ItemMap) (o : Option Item) :
    fetchStep m o
      = match accepted o with
        | some it => mapAssign m (sanitizeFilename it.Title) it
        | none => m := by
  cases o with
  | none => rfl
  | some it =>
    by_cases h1 : it.Title = []
    · simp [fetchStep, accepted, h1]
    · by_cases h2 : sanitizeFilename it.Title = []
      · simp [fetchStep, accepted, h1, h2]
      · simp [fetchStep, accepted, h1, h2]

theorem lastNamed_nil (k : GoString) : lastNamed [] k = none := rfl

theorem lastNamed_cons (o : Option Item) (rest : List (Option Item)) (k : GoString) :
    lastNamed (o :: rest) k
      = match accepted o with
        | some it =>
          if sanitizeFilename it.Title = k then some ((lastNamed rest k).getD it)
          else lastNamed rest k
        | none => lastNamed rest k := by
  unfold lastNamed
  rw [acceptedItems_cons]
  cases h : accepted o with
  | none => rfl
  | some it =>
    by_cases hk : sanitizeFilename it.Title = k
    · simp only [hk, if_true]
      rw [List.filter_cons_of_pos (by simpa using hk), List.getLast?_cons]
    · simp only [hk, if_false]
      rw [List.filter_cons_of_neg (by simpa using hk)]

theorem acceptedNames_cons (o : Option Item) (rest : List (Option Item)) :
    acceptedNames (o :: rest)
      = match accepted o with
        | some it => sanitizeFilename it.Title :: acceptedNames rest
        | none => acceptedNames rest := by
  unfold acceptedNames
  rw [acceptedItems_cons]
  cases accepted o <;> rfl

theorem lastNamed_isSome_of_mem (items : List (Option Item)) (k : GoString)
    (h : k ∈ acceptedNames items) : ∃ it, lastNamed items k = some it := by
  obtain ⟨it, hit, hk⟩ := List.mem_map.1 h
  have hmem : it ∈ (acceptedItems items).filter (fun it => sanitizeFilename it.Title = k) :=
    List.mem_filter.2 ⟨hit, by simpa using hk⟩
  cases hl : lastNamed items k with
  | some it' => exact ⟨it', rfl⟩
  | none =>
    unfold lastNamed at hl
    rw [List.getLast?_eq_none_iff] at hl
    rw [hl] at hmem
    cases hmem

theorem lastNamed_eq_some_iff_split (items : List (Option Item)) (k : GoString) (it : Item)
    (h : lastNamed items k = some it) :
    ∃ before after, acceptedItems items = before ++ it :: after
      ∧ sanitizeFilename it.Title = k
      ∧ ∀ x ∈ after, sanitizeFilename x.Title ≠ k := by
  unfold lastNamed at h
  obtain ⟨ys, hys⟩ := List.getLast?_eq_some_iff.1 h
  obtain ⟨l₁, l₂, hl, _, h2⟩ := List.filter_eq_append_iff.1 hys
  obtain ⟨m₁, m₂, hm, _, hp, hnil⟩ := List.filter_eq_cons_iff.1 h2
  refine ⟨l₁ ++ m₁, m₂, by rw [hl, hm, List.append_assoc], by simpa using hp, ?_⟩
  intro x hx
  have := (List.filter_eq_nil_iff.1 hnil) x hx
  simpa using this

theorem lookup_foldl_fetchStep (items : List (Option Item)) (m : ItemMap) (k : GoString) :
    (items.foldl fetchStep m).lookup k = (lastNamed items k).or (m.lookup k) := by
  induction items generalizing m with
  | nil => rfl
  | cons o rest ih =>
    rw [List.foldl_cons, ih, fetchStep_eq, lastNamed_cons]
    cases h : accepted o with
    | none => rfl
    | some it =>
      dsimp only
      rw [lookup_mapAssign]
      by_cases hk : sanitizeFilename it.Title = k
      · rw [if_pos hk, if_pos hk.symm]
        cases lastNamed rest k <;> rfl
      · rw [if_neg hk, if_neg (fun e => hk e.symm)]

theorem count_keys_foldl_fetchStep (items : List (Option Item)) (m : ItemMap) (k : GoString) :
    ((items.foldl fetchStep m).map Prod.fst).count k
      = if k ∈ acceptedNames items then 1 else (m.map Prod.fst).count k := by
  induction items generalizing m with
  | nil => simp [acceptedNames, acceptedItems]
  | cons o rest ih =>
    rw [List.foldl_cons, ih, fetchStep_eq, acceptedNames_cons]
    cases h : accepted o with
    | none => rfl
    | some it =>
      dsimp only
      rw [count_keys_mapAssign]
      by_cases hk : k = sanitizeFilename it.Title
      · simp [hk]
      · by_cases hr : k ∈ acceptedNames rest
        · simp [hr]
        · simp [hr, hk]

theorem fetchRssData_ok (r : RssRoot) (Fetch : GoString → Fetched) (feed : Feed)
    (h : Fetch r.feedUrl = (some feed, none)) :
    r.fetchRssData Fetch
      = ({ r with feedName := feed.Title,
                  items := some (feed.Items.foldl fetchStep (r.items.getD [])) }, none) := by
  unfold RssRoot.fetchRssData
  rw [h]
  cases hi : r.items <;> simp [hi]

theorem mapIndex_fetchRssData (r : RssRoot) (Fetch : GoString → Fetched) (feed : Feed)
    (h : Fetch r.feedUrl = (some feed, none)) (k : GoString) :
    mapIndex (r.fetchRssData Fetch).1.items k
      = (lastNamed feed.Items k).or (mapIndex r.items k) := by
  rw [fetchRssData_ok r Fetch feed h]
  show List.lookup k _ = _
  rw [lookup_foldl_fetchStep]
  cases r.items <;> rfl

theorem count_mapKeys_fetchRssData (r : RssRoot) (Fetch : GoString → Fetched) (feed : Feed)
    (h : Fetch r.feedUrl = (some feed, none)) (k : GoString) :
    (mapKeys (r.fetchRssData Fetch).1.items).count k
      = if k ∈ acceptedNames feed.Items then 1 else (mapKeys r.items).count k := by
  rw [fetchRssData_ok r Fetch feed h]
  show List.count k (List.map Prod.fst _) = _
  rw [count_keys_foldl_fetchStep]
  cases r.items <;> rfl

/-! ## Lemmas on listing and lookup -/

theorem Readdir_eq (r : RssRoot) :
    r.Readdir
      = ((mapKeys r.items).map (fun k => ({ Name := k ++ fileSuffix, Mode := S_IFREG } : DirEntry)),
          OK) := by
  unfold RssRoot.Readdir
  have h : ∀ (ks : List GoString) (acc : List DirEntry),
      ks.foldl (fun entries baseName =>
          entries ++ [({ Name := baseName ++ fileSuffix, Mode := S_IFREG } : DirEntry)]) acc
        = acc ++ ks.map (fun k => ({ Name := k ++ fileSuffix, Mode := S_IFREG } : DirEntry)) := by
    intro ks
    induction ks with
    | nil => simp
    | cons k ks ih => intro acc; rw [List.foldl_cons, ih]; simp
  simp only [h, List.nil_append]

theorem Lookup_not_suffix (r : RssRoot) (env : Env) (name : GoString) (out : EntryOut)
    (h : ¬ fileSuffix <:+ name) : r.Lookup env name out = ((none, ENOENT), out) := by
  have : HasSuffix name fileSuffix = false := by
    rw [← Bool.not_eq_true, HasSuffix_iff]; exact h
  simp [RssRoot.Lookup, this]

theorem Lookup_missing (r : RssRoot) (env : Env) (base : GoString) (out : EntryOut)
    (h : mapIndex r.items base = none) :
    r.Lookup env (base ++ fileSuffix) out = ((none, ENOENT), out) := by
  simp [RssRoot.Lookup, HasSuffix_append, TrimSuffix_append, h]

theorem Lookup_found (r : RssRoot) (env : Env) (base : GoString) (out : EntryOut) (item : Item)
    (h : mapIndex r.items base = some item) :
    r.Lookup env (base ++ fileSuffix) out
      = ((some { node := { content := lookupContent env item },
                 stable := env.newInodeAttr { Mode := S_IFREG } }, OK),
          lookupOut env item out) := by
  simp only [RssRoot.Lookup, HasSuffix_append, TrimSuffix_append, h, lookupOut]
  cases item.Date.IsZero <;> simp

theorem Lookup_ok_inv (r : RssRoot) (env : Env) (name : GoString) (out : EntryOut)
    (h : (r.Lookup env name out).1.2 = OK) :
    ∃ base item, name = base ++ fileSuffix ∧ mapIndex r.items base = some item := by
  by_cases hs : fileSuffix <:+ name
  · obtain ⟨b, rfl⟩ := hs
    cases hm : mapIndex r.items b with
    | none =>
      rw [Lookup_missing r env b out hm] at h
      have h2 : ENOENT = OK := h
      exact absurd h2 (by decide)
    | some item => exact ⟨b, item, rfl, hm⟩
  · rw [Lookup_not_suffix r env name out hs] at h
    have h2 : ENOENT = OK := h
    exact absurd h2 (by decide)

/-! ## Reading a file -/

/-- C1: under the bounds every call satisfies (`off` is an `int64`, the two
slices fit one address space), `RssFile.Read` returns without panic exactly
what the reference definition `readSpec` gives: `EINVAL` for a negative offset,
a zero-length success at or past the end, otherwise
`content[off : min(off+n, len(content))]`; and it fails if and only if
`off < 0`. -/
theorem Read_eq_readSpec (f : RssFile) (dest : List UInt8) (off : Int)
    (hlo : -2 ^ 63 ≤ off) (hhi : off < 2 ^ 63)
    (hmem : f.content.length + dest.length < 2 ^ 63) :
    f.Read dest off = some (readSpec f.content off dest.length)
      ∧ ((∃ res, f.Read dest off = some res ∧ res.2 ≠ OK) ↔ off < 0) := by
  suffices h : f.Read dest off = some (readSpec f.content off dest.length)
      ∧ ((readSpec f.content off dest.length).2 ≠ OK ↔ off < 0) by
    refine ⟨h.1, ?_⟩
    rw [h.1]
    constructor
    · rintro ⟨res, hres, hne⟩
      cases hres
      exact h.2.1 hne
    · intro hneg
      exact ⟨_, rfl, h.2.2 hneg⟩
  by_cases h0 : off < 0
  · have h1 : ¬ (off ≥ (f.content.length : Int)) := by omega
    simp [RssFile.Read, readSpec, h0, h1, EINVAL, OK]
  · by_cases h1 : off ≥ (f.content.length : Int)
    · simp [RssFile.Read, readSpec, h0, h1, OK]
    · have hw : wrapInt64 (off + dest.length) = off + dest.length :=
        wrapInt64_of_range _ (by omega) (by omega)
      obtain ⟨k, rfl⟩ : ∃ k : Nat, off = k := ⟨off.toNat, by omega⟩
      have hk : k < f.content.length := by omega
      simp only [RssFile.Read, readSpec, h0, h1, hw, if_false, OK]
      refine ⟨?_, by simp⟩
      by_cases h2 : (k : Int) + dest.length > f.content.length
      · have h3 : f.content.length < k + dest.length := by omega
        simp [h2, sliceExpr, hk.le, List.drop_take, Nat.min_eq_right h3.le]
      · have h3 : k + dest.length ≤ f.content.length := by omega
        have h4 : ((k : Int) + dest.length).toNat = k + dest.length := by omega
        have h5 : (k : Int) + dest.length ≤ f.content.length := by omega
        simp [h2, sliceExpr, h4, h5, List.drop_take, Nat.min_eq_left h3]

theorem Read_eq_readSpec_witness :
    (-2 ^ 63 ≤ (1 : Int)) ∧ ((1 : Int) < 2 ^ 63)
      ∧ (([10, 20, 30] : List UInt8).length + ([0, 0, 0, 0] : List UInt8).length < 2 ^ 63)
      ∧ (RssFile.Read ⟨[10, 20, 30]⟩ [0, 0, 0, 0] 1 = some (readSpec [10, 20, 30] 1 4)
          ∧ ((∃ res, RssFile.Read ⟨[10, 20, 30]⟩ [0, 0, 0, 0] 1 = some res ∧ res.2 ≠ OK)
              ↔ (1 : Int) < 0)) :=
  ⟨by decide, by decide, by decide,
    Read_eq_readSpec ⟨[10, 20, 30]⟩ [0, 0, 0, 0] 1 (by decide) (by decide) (by decide)⟩

/-! ## Lookup of a name that is not there -/

/-- C2: `RssRoot.Lookup` answers `ENOENT` (with no inode) exactly when the name
does not end in `.txt` or the name without that suffix is not a key of the
item map; a name without the suffix, such as `foo`, is never found, whatever
the store holds. -/
theorem Lookup_ENOENT_iff (r : RssRoot) (env : Env) (name : GoString) (out : EntryOut) :
    ((r.Lookup env name out).1 = (none, ENOENT)
        ↔ (¬ fileSuffix <:+ name
            ∨ ∀ base, name = base ++ fileSuffix → base ∉ mapKeys r.items))
      ∧ ((r.Lookup env name out).1.2 ≠ ENOENT → (r.Lookup env name out).1.2 = OK)
      ∧ (r.Lookup env "foo".toList out).1 = (none, ENOENT) := by
  refine ⟨?_, ?_, ?_⟩
  · by_cases hs : fileSuffix <:+ name
    · obtain ⟨b, rfl⟩ := hs
      cases hm : mapIndex r.items b with
      | none =>
        rw [Lookup_missing r env b out hm]
        refine ⟨fun _ => Or.inr ?_, fun _ => rfl⟩
        intro base hb hmem
        have hb' : b = base := List.append_cancel_right hb
        subst hb'
        obtain ⟨it, hit⟩ := (mem_mapKeys_iff _ _).1 hmem
        rw [hm] at hit
        cases hit
      | some item =>
        rw [Lookup_found r env b out item hm]
        constructor
        · intro h
          have h2 : OK = ENOENT := congrArg Prod.snd h
          exact absurd h2 (by decide)
        · rintro (h | h)
          · exact absurd ⟨b, rfl⟩ h
          · exact absurd ((mem_mapKeys_iff _ _).2 ⟨item, hm⟩) (h b rfl)
    · rw [Lookup_not_suffix r env name out hs]
      exact ⟨fun _ => Or.inl hs, fun _ => rfl⟩
  · by_cases hs : fileSuffix <:+ name
    · obtain ⟨b, rfl⟩ := hs
      cases hm : mapIndex r.items b with
      | none => rw [Lookup_missing r env b out hm]; intro h; exact absurd rfl h
      | some item => rw [Lookup_found r env b out item hm]; intro _; rfl
    · rw [Lookup_not_suffix r env name out hs]; intro h; exact absurd rfl h
  · rw [Lookup_not_suffix r env _ out (by decide)]

/-! ## Timestamps of a looked-up entry -/

/-- C3 (defect of the code): `Lookup` builds `attrTime` to carry the item's
publish date and hands it to `SetTimes` in the access slot. At a stored item
whose publish date is set, the entry attributes therefore carry the current
time as modification and change time and the publish date as access time,
where the claim has the publish date as modification and change time and the
current time as access time. -/
theorem Lookup_times_failing_input :
    (RssRoot.Lookup exStoreHello exEnv "Hello-World.txt".toList {}).1.2 = OK
      ∧ exHello.Date.IsZero = false
      ∧ toUint64 exHello.Date.Unix = 864403200
      ∧ toUint64 exEnv.now.Unix = 1764403200
      ∧ (RssRoot.Lookup exStoreHello exEnv "Hello-World.txt".toList {}).2.Attr.Mtime = 1764403200
      ∧ (RssRoot.Lookup exStoreHello exEnv "Hello-World.txt".toList {}).2.Attr.Ctime = 1764403200
      ∧ (RssRoot.Lookup exStoreHello exEnv "Hello-World.txt".toList {}).2.Attr.Atime = 864403200
      ∧ ¬ ((RssRoot.Lookup exStoreHello exEnv "Hello-World.txt".toList {}).2.Attr.Mtime
              = toUint64 exHello.Date.Unix
            ∧ (RssRoot.Lookup exStoreHello exEnv "Hello-World.txt".toList {}).2.Attr.Ctime
              = toUint64 exHello.Date.Unix
            ∧ (RssRoot.Lookup exStoreHello exEnv "Hello-World.txt".toList {}).2.Attr.Atime
              = toUint64 exEnv.now.Unix) := by
  decide

/-- What the call `out.SetTimes(&attrTime, &now, &now)` of `Lookup` writes on
every successful lookup: `attrTime` (the publish date when set, else the
current time) goes to the access slot, the current time to the modification
and change slots. This is the behaviour of the code as written, on which the
evaluation above rests; it is not the intended contract. -/
theorem Lookup_SetTimes_slots (r : RssRoot) (env : Env) (name : GoString) (out : EntryOut)
    (hok : (r.Lookup env name out).1.2 = OK) :
    ∃ base item, name = base ++ fileSuffix ∧ mapIndex r.items base = some item
      ∧ ((r.Lookup env name out).2.Attr.Atime, (r.Lookup env name out).2.Attr.Atimensec)
          = (if item.Date.IsZero then (toUint64 env.now.Unix, toUint32 env.now.Nanosecond)
             else (toUint64 item.Date.Unix, toUint32 item.Date.Nanosecond))
      ∧ ((r.Lookup env name out).2.Attr.Mtime, (r.Lookup env name out).2.Attr.Mtimensec)
          = (toUint64 env.now.Unix, toUint32 env.now.Nanosecond)
      ∧ ((r.Lookup env name out).2.Attr.Ctime, (r.Lookup env name out).2.Attr.Ctimensec)
          = (toUint64 env.now.Unix, toUint32 env.now.Nanosecond) := by
  obtain ⟨base, item, rfl, hitem⟩ := Lookup_ok_inv r env name out hok
  refine ⟨base, item, rfl, hitem, ?_⟩
  rw [Lookup_found r env base out item hitem]
  cases hz : item.Date.IsZero <;> simp [lookupOut, Attr.SetTimes, hz]

/-! ## Refresh -/

/-- C4 as stated fails: an entry that came from an earlier refresh only is
still stored after a successful `fetchRssData` of a feed that does not hold
it. -/
theorem fetchRssData_names_counterexample :
    (exStore.fetchRssData (exFetch ⟨"Feed".toList, [some exNews]⟩)).2 = none
      ∧ mapKeys (exStore.fetchRssData (exFetch ⟨"Feed".toList, [some exNews]⟩)).1.items
          = ["News".toList, "Old".toList]
      ∧ acceptedNames [some exNews] = ["News".toList]
      ∧ ¬ (∀ k, k ∈ mapKeys (exStore.fetchRssData (exFetch ⟨"Feed".toList, [some exNews]⟩)).1.items
            ↔ k ∈ acceptedNames [some exNews]) := by
  refine ⟨by decide, by decide, by decide, ?_⟩
  intro h
  exact absurd ((h "Old".toList).1 (by decide)) (by decide)

/-- C4 (amended): a successful `fetchRssData` adds to the map it finds: the
stored base names afterwards are the names stored before together with the
sanitized names of the new feed's accepted items. The mapping is replaced
wholesale when the refresh runs through `OnAdd`, which installs an empty map
first: then the stored names are exactly those of the new feed's accepted
items. -/
theorem fetchRssData_names (r : RssRoot) (Fetch : GoString → Fetched) (feed : Feed)
    (hfetch : Fetch r.feedUrl = (some feed, none)) :
    (r.fetchRssData Fetch).2 = none
      ∧ (∀ k, k ∈ mapKeys (r.fetchRssData Fetch).1.items
            ↔ (k ∈ mapKeys r.items ∨ k ∈ acceptedNames feed.Items))
      ∧ (∀ k, k ∈ mapKeys (r.OnAdd Fetch).items ↔ k ∈ acceptedNames feed.Items) := by
  have key : ∀ (r : RssRoot), Fetch r.feedUrl = (some feed, none) →
      ∀ k, k ∈ mapKeys (r.fetchRssData Fetch).1.items
        ↔ (k ∈ mapKeys r.items ∨ k ∈ acceptedNames feed.Items) := by
    intro r hr k
    rw [← List.count_pos_iff (a := k), count_mapKeys_fetchRssData r Fetch feed hr,
      ← List.count_pos_iff (a := k) (l := mapKeys r.items)]
    by_cases hk : k ∈ acceptedNames feed.Items
    · simp [hk]
    · simp [hk]
  refine ⟨by rw [fetchRssData_ok r Fetch feed hfetch], key r hfetch, ?_⟩
  intro k
  have := key { r with items := some [] } hfetch k
  simpa [RssRoot.OnAdd, mapKeys] using this

theorem fetchRssData_names_witness :
    exFetch ⟨"Feed".toList, [some exNews]⟩ exStore.feedUrl
        = (some ⟨"Feed".toList, [some exNews]⟩, none)
      ∧ (exStore.fetchRssData (exFetch ⟨"Feed".toList, [some exNews]⟩)).2 = none
      ∧ (∀ k, k ∈ mapKeys (exStore.fetchRssData (exFetch ⟨"Feed".toList, [some exNews]⟩)).1.items
            ↔ (k ∈ mapKeys exStore.items ∨ k ∈ acceptedNames [some exNews]))
      ∧ (∀ k, k ∈ mapKeys (exStore.OnAdd (exFetch ⟨"Feed".toList, [some exNews]⟩)).items
            ↔ k ∈ acceptedNames [some exNews]) :=
  ⟨rfl, fetchRssData_names exStore (exFetch ⟨"Feed".toList, [some exNews]⟩)
    ⟨"Feed".toList, [some exNews]⟩ rfl⟩

/-- C5: from an empty store, a successful refresh of a feed of N items with
non-empty titles and non-empty, pairwise distinct sanitized names makes
`Readdir` return exactly N entries, one regular-file entry
`sanitizeFilename(title) + ".txt"` per item, and `Lookup` of every listed name
succeeds with the file synthesized from the item of that name. -/
theorem refresh_Readdir_Lookup (r : RssRoot) (Fetch : GoString → Fetched) (feed : Feed)
    (items : List Item) (env : Env) (out : EntryOut)
    (hempty : r.items = none ∨ r.items = some [])
    (hfetch : Fetch r.feedUrl = (some feed, none))
    (hitems : feed.Items = items.map some)
    (hok : ∀ it ∈ items, it.Title ≠ [] ∧ sanitizeFilename it.Title ≠ [])
    (hdistinct : (items.map (fun it => sanitizeFilename it.Title)).Nodup) :
    (r.fetchRssData Fetch).2 = none
      ∧ (r.fetchRssData Fetch).1.Readdir.2 = OK
      ∧ (r.fetchRssData Fetch).1.Readdir.1.length = items.length
      ∧ ((r.fetchRssData Fetch).1.Readdir.1).Perm
          (items.map (fun it =>
            ({ Name := sanitizeFilename it.Title ++ fileSuffix, Mode := S_IFREG } : DirEntry)))
      ∧ ∀ e ∈ (r.fetchRssData Fetch).1.Readdir.1, ∃ it ∈ items,
          e = { Name := sanitizeFilename it.Title ++ fileSuffix, Mode := S_IFREG }
            ∧ ((r.fetchRssData Fetch).1.Lookup env e.Name out).1
                = (some { node := { content := lookupContent env it },
                          stable := env.newInodeAttr { Mode := S_IFREG } }, OK) := by
  have hacc : acceptedItems feed.Items = items := by
    rw [hitems]; exact acceptedItems_map_some items hok
  have hnames : acceptedNames feed.Items = items.map (fun it => sanitizeFilename it.Title) := by
    unfold acceptedNames; rw [hacc]
  have hprior : ∀ k, (mapKeys r.items).count k = 0 := by
    intro k
    rcases hempty with h | h <;> rw [h] <;> rfl
  have hperm : (mapKeys (r.fetchRssData Fetch).1.items).Perm
      (items.map (fun it => sanitizeFilename it.Title)) := by
    rw [List.perm_iff_count]
    intro k
    rw [count_decEq_eq_count, count_decEq_eq_count,
      count_mapKeys_fetchRssData r Fetch feed hfetch, hnames, hprior]
    by_cases hk : k ∈ items.map (fun it => sanitizeFilename it.Title)
    · rw [if_pos hk, ← count_decEq_eq_count]
      exact (List.count_eq_one_of_mem hdistinct hk).symm
    · rw [if_neg hk]
      exact (List.count_eq_zero_of_not_mem hk).symm
  have hdir : ((r.fetchRssData Fetch).1.Readdir.1).Perm
      (items.map (fun it =>
        ({ Name := sanitizeFilename it.Title ++ fileSuffix, Mode := S_IFREG } : DirEntry))) := by
    rw [Readdir_eq]
    have := hperm.map (fun k => ({ Name := k ++ fileSuffix, Mode := S_IFREG } : DirEntry))
    rwa [List.map_map] at this
  have hlook : ∀ it ∈ items,
      mapIndex (r.fetchRssData Fetch).1.items (sanitizeFilename it.Title) = some it := by
    intro it hit
    have hk : sanitizeFilename it.Title ∈ acceptedNames feed.Items := by
      rw [hnames]; exact List.mem_map_of_mem _ hit
    obtain ⟨last, hlast⟩ := lastNamed_isSome_of_mem feed.Items _ hk
    obtain ⟨before, after, hsplit, hsame, _⟩ :=
      lastNamed_eq_some_iff_split feed.Items _ last hlast
    have hmem : last ∈ items := by
      rw [← hacc, hsplit]; simp
    have : last = it := List.inj_on_of_nodup_map hdistinct hmem hit hsame
    rw [mapIndex_fetchRssData r Fetch feed hfetch, hlast, this]
    rfl
  refine ⟨by rw [fetchRssData_ok r Fetch feed hfetch], by rw [Readdir_eq], ?_, hdir, ?_⟩
  · rw [hdir.length_eq, List.length_map]
  · intro e he
    obtain ⟨it, hit, rfl⟩ := List.mem_map.1 (hdir.mem_iff.1 he)
    refine ⟨it, hit, rfl, ?_⟩
    rw [Lookup_found _ env _ out it (hlook it hit)]

theorem refresh_Readdir_Lookup_witness :
    ((({} : RssRoot).items = none ∨ ({} : RssRoot).items = some [])
        ∧ exFetch ⟨"Feed".toList, [some exHello, some exNews]⟩ ({} : RssRoot).feedUrl
            = (some ⟨"Feed".toList, [some exHello, some exNews]⟩, none)
        ∧ (⟨"Feed".toList, [some exHello, some exNews]⟩ : Feed).Items
            = [exHello, exNews].map some
        ∧ (∀ it ∈ [exHello, exNews], it.Title ≠ [] ∧ sanitizeFilename it.Title ≠ [])
        ∧ ([exHello, exNews].map (fun it => sanitizeFilename it.Title)).Nodup)
      ∧ ((({} : RssRoot).fetchRssData
            (exFetch ⟨"Feed".toList, [some exHello, some exNews]⟩)).2 = none
        ∧ (({} : RssRoot).fetchRssData
            (exFetch ⟨"Feed".toList, [some exHello, some exNews]⟩)).1.Readdir.2 = OK
        ∧ (({} : RssRoot).fetchRssData
            (exFetch ⟨"Feed".toList, [some exHello, some exNews]⟩)).1.Readdir.1.length
            = [exHello, exNews].length
        ∧ ((({} : RssRoot).fetchRssData
            (exFetch ⟨"Feed".toList, [some exHello, some exNews]⟩)).1.Readdir.1).Perm
            ([exHello, exNews].map (fun it =>
              ({ Name := sanitizeFilename it.Title ++ fileSuffix, Mode := S_IFREG } : DirEntry)))
        ∧ ∀ e ∈ (({} : RssRoot).fetchRssData
            (exFetch ⟨"Feed".toList, [some exHello, some exNews]⟩)).1.Readdir.1,
            ∃ it ∈ [exHello, exNews],
              e = { Name := sanitizeFilename it.Title ++ fileSuffix, Mode := S_IFREG }
                ∧ ((({} : RssRoot).fetchRssData
                      (exFetch ⟨"Feed".toList, [some exHello, some exNews]⟩)).1.Lookup
                      exEnv e.Name {}).1
                    = (some { node := { content := lookupContent exEnv it },
                              stable := exEnv.newInodeAttr { Mode := S_IFREG } }, OK)) :=
  ⟨⟨Or.inl rfl, rfl, rfl, by decide, by decide⟩,
    refresh_Readdir_Lookup {} (exFetch ⟨"Feed".toList, [some exHello, some exNews]⟩)
      ⟨"Feed".toList, [some exHello, some exNews]⟩ [exHello, exNews] exEnv {}
      (Or.inl rfl) rfl rfl (by decide) (by decide)⟩

/-- C6: after a successful refresh of a feed in which accepted items share the
sanitized name `name` (one item is enough), the map holds exactly one entry
under `name`, and it is the accepted item that comes last in feed order among
those with that name. -/
theorem fetchRssData_last_wins (r : RssRoot) (Fetch : GoString → Fetched) (feed : Feed)
    (name : GoString) (hfetch : Fetch r.feedUrl = (some feed, none))
    (hname : name ∈ acceptedNames feed.Items) :
    (r.fetchRssData Fetch).2 = none
      ∧ (mapKeys (r.fetchRssData Fetch).1.items).count name = 1
      ∧ ∃ before last after, acceptedItems feed.Items = before ++ last :: after
          ∧ sanitizeFilename last.Title = name
          ∧ (∀ x ∈ after, sanitizeFilename x.Title ≠ name)
          ∧ mapIndex (r.fetchRssData Fetch).1.items name = some last := by
  obtain ⟨it, hit⟩ := lastNamed_isSome_of_mem feed.Items name hname
  obtain ⟨before, after, h1, h2, h3⟩ := lastNamed_eq_some_iff_split feed.Items name it hit
  refine ⟨by rw [fetchRssData_ok r Fetch feed hfetch], ?_, before, it, after, h1, h2, h3, ?_⟩
  · rw [count_mapKeys_fetchRssData r Fetch feed hfetch, if_pos hname]
  · rw [mapIndex_fetchRssData r Fetch feed hfetch, hit]
    rfl

theorem fetchRssData_last_wins_witness :
    exFetch ⟨"Feed".toList, [some exHello, some exNews, some exLater]⟩ exStore.feedUrl
        = (some ⟨"Feed".toList, [some exHello, some exNews, some exLater]⟩, none)
      ∧ "Hello-World".toList ∈ acceptedNames [some exHello, some exNews, some exLater]
      ∧ (exStore.fetchRssData
            (exFetch ⟨"Feed".toList, [some exHello, some exNews, some exLater]⟩)).2 = none
      ∧ (mapKeys (exStore.fetchRssData
            (exFetch ⟨"Feed".toList, [some exHello, some exNews, some exLater]⟩)).1.items).count
          "Hello-World".toList = 1
      ∧ ∃ before last after,
          acceptedItems [some exHello, some exNews, some exLater] = before ++ last :: after
          ∧ sanitizeFilename last.Title = "Hello-World".toList
          ∧ (∀ x ∈ after, sanitizeFilename x.Title ≠ "Hello-World".toList)
          ∧ mapIndex (exStore.fetchRssData
              (exFetch ⟨"Feed".toList, [some exHello, some exNews, some exLater]⟩)).1.items
              "Hello-World".toList = some last :=
  ⟨rfl, by decide,
    fetchRssData_last_wins exStore
      (exFetch ⟨"Feed".toList, [some exHello, some exNews, some exLater]⟩)
      ⟨"Feed".toList, [some exHello, some exNews, some exLater]⟩ "Hello-World".toList rfl
      (by decide)⟩

/-- C7: when the fetch collaborator returns an error or a nil feed,
`fetchRssData` returns an error and leaves the item map, the feed title and
hence the directory listing as they were. -/
theorem fetchRssData_failure_keeps_state (r : RssRoot) (Fetch : GoString → Fetched)
    (hfail : (Fetch r.feedUrl).2 ≠ none ∨ (Fetch r.feedUrl).1 = none) :
    (r.fetchRssData Fetch).2 ≠ none
      ∧ (r.fetchRssData Fetch).1.items = r.items
      ∧ (r.fetchRssData Fetch).1.feedName = r.feedName
      ∧ (r.fetchRssData Fetch).1.Readdir = r.Readdir := by
  unfold RssRoot.fetchRssData
  rcases hf : Fetch r.feedUrl with ⟨feed, err⟩
  rw [hf] at hfail
  cases err with
  | some e => simp
  | none =>
    cases feed with
    | none => simp
    | some f => simp at hfail

theorem fetchRssData_failure_keeps_state_witness :
    ((exFetchError exStore.feedUrl).2 ≠ none ∨ (exFetchError exStore.feedUrl).1 = none)
      ∧ (exStore.fetchRssData exFetchError).2 ≠ none
      ∧ (exStore.fetchRssData exFetchError).1.items = exStore.items
      ∧ (exStore.fetchRssData exFetchError).1.feedName = exStore.feedName
      ∧ (exStore.fetchRssData exFetchError).1.Readdir = exStore.Readdir :=
  ⟨Or.inl (by decide), fetchRssData_failure_keeps_state exStore exFetchError (Or.inl (by decide))⟩

/-! ## Synthesized content -/

/-- C8: the content of the file made by `Lookup` for a stored item is the
document `documentSpec`: the title, link and formatted date lines, an empty
line, and the body, where the body is the item's content if non-empty, else
its summary if non-empty, else `no content available.`. -/
theorem Lookup_content_eq_documentSpec (r : RssRoot) (env : Env) (base : GoString)
    (out : EntryOut) (item : Item) (h : mapIndex r.items base = some item) :
    ∃ inode, (r.Lookup env (base ++ fileSuffix) out).1 = (some inode, OK)
      ∧ inode.node.content = goBytes (documentSpec (env.formatRFC1123 item.Date) item)
      ∧ (item.Content = [] → item.Summary ≠ [] → bodySpec item = item.Summary)
      ∧ (item.Content = [] → item.Summary = [] → bodySpec item = "no content available.".toList) := by
  rw [Lookup_found r env base out item h]
  refine ⟨_, rfl, ?_, ?_, ?_⟩
  · show lookupContent env item = _
    unfold lookupContent documentSpec bodySpec
    by_cases hc : item.Content = []
    · by_cases hs : item.Summary = []
      · simp [hc, hs, sprintfS]
      · simp [hc, hs, sprintfS]
    · simp [hc, sprintfS]
  · intro hc hs; simp [bodySpec, hc, hs]
  · intro hc hs; simp [bodySpec, hc, hs]

theorem Lookup_content_eq_documentSpec_witness :
    mapIndex exStoreHello.items "Hello-World".toList = some exHello
      ∧ ∃ inode,
        (RssRoot.Lookup exStoreHello exEnv ("Hello-World".toList ++ fileSuffix) {}).1
            = (some inode, OK)
          ∧ inode.node.content = goBytes (documentSpec (exEnv.formatRFC1123 exHello.Date) exHello)
          ∧ (exHello.Content = [] → exHello.Summary ≠ [] → bodySpec exHello = exHello.Summary)
          ∧ (exHello.Content = [] → exHello.Summary = [] →
              bodySpec exHello = "no content available.".toList) :=
  ⟨by decide,
    Lookup_content_eq_documentSpec exStoreHello exEnv "Hello-World".toList {} exHello (by decide)⟩

/-! ## Sanitized names -/

/-- C9: for every title the sanitized name holds no `/`, and sanitizing a
sanitized name changes nothing. -/
theorem sanitizeFilename_no_slash_idempotent (title : GoString) :
    '/' ∉ sanitizeFilename title
      ∧ sanitizeFilename (sanitizeFilename title) = sanitizeFilename title :=
  ⟨sanitize_no_slash title, sanitize_idem title⟩

/-! ## Size of a looked-up file -/

/-- C10: after a successful `Lookup` the size in the entry attributes and the
size reported by `Getattr` of the new file node are both the byte length of
the synthesized content, and a `Read` at offset 0 into a buffer of that size
returns the whole content. The content length is an `int`, below `2^63`. -/
theorem Lookup_size_Getattr_Read (r : RssRoot) (env : Env) (name : GoString) (out out' : EntryOut)
    (inode : Inode) (now : Time) (aout : AttrOut) (dest : List UInt8)
    (hok : r.Lookup env name out = ((some inode, OK), out'))
    (hlen : inode.node.content.length < 2 ^ 63)
    (hdest : dest.length = out'.Attr.Size) :
    out'.Attr.Size = inode.node.content.length
      ∧ (inode.node.Getattr now aout).1.Attr.Size = inode.node.content.length
      ∧ (inode.node.Getattr now aout).1.Attr.Size = out'.Attr.Size
      ∧ inode.node.Read dest 0 = some (some inode.node.content, OK) := by
  have hok2 : (r.Lookup env name out).1.2 = OK := by rw [hok]
  obtain ⟨base, item, rfl, hitem⟩ := Lookup_ok_inv r env name out hok2
  rw [Lookup_found r env base out item hitem] at hok
  simp only [Prod.mk.injEq, Option.some.injEq] at hok
  obtain ⟨⟨hnode, _⟩, hout⟩ := hok
  subst hnode hout
  simp only at hlen hdest ⊢
  have hsize : (lookupOut env item out).Attr.Size = (lookupContent env item).length := by
    simp only [lookupOut, Attr.SetTimes]
    exact toUint64_natCast _ hlen
  have hget : ((RssFile.mk (lookupContent env item)).Getattr now aout).1.Attr.Size
      = (lookupContent env item).length := by
    simp only [RssFile.Getattr, Attr.SetTimes]
    exact toUint64_natCast _ hlen
  refine ⟨hsize, hget, by rw [hget, hsize], ?_⟩
  rw [hsize] at hdest
  exact Read_whole _ dest hlen hdest

theorem Lookup_size_Getattr_Read_witness :
    RssRoot.Lookup exStoreHello exEnv "Hello-World.txt".toList {}
        = ((some ⟨⟨lookupContent exEnv exHello⟩, ⟨S_IFREG, 7, 1⟩⟩, OK),
            lookupOut exEnv exHello {})
      ∧ (lookupContent exEnv exHello).length < 2 ^ 63
      ∧ (List.replicate 86 (0 : UInt8)).length = (lookupOut exEnv exHello {}).Attr.Size
      ∧ (lookupOut exEnv exHello {}).Attr.Size = (lookupContent exEnv exHello).length
      ∧ ((RssFile.mk (lookupContent exEnv exHello)).Getattr exEnv.now {}).1.Attr.Size
          = (lookupContent exEnv exHello).length
      ∧ ((RssFile.mk (lookupContent exEnv exHello)).Getattr exEnv.now {}).1.Attr.Size
          = (lookupOut exEnv exHello {}).Attr.Size
      ∧ (RssFile.mk (lookupContent exEnv exHello)).Read (List.replicate 86 (0 : UInt8)) 0
          = some (some (lookupContent exEnv exHello), OK) :=
  ⟨by decide, by decide, by decide,
    Lookup_size_Getattr_Read exStoreHello exEnv "Hello-World.txt".toList {}
      (lookupOut exEnv exHello {}) ⟨⟨lookupContent exEnv exHello⟩, ⟨S_IFREG, 7, 1⟩⟩ exEnv.now {}
      (List.replicate 86 (0 : UInt8)) (by decide) (by decide) (by decide)⟩

end HackFS
